import Mathlib

/-!
Shallow embedding in Lean 4 of the `symalign` package of LoRA-SegDino:
the multimodal encoder (`src/symalign/multimodal_encoder.py`) and the
dual-view symbolic alignment driver (`src/symalign/multimodal_symbolic_loss.py`).

Floating-point tensors are modelled over the real numbers; a (C,H,W)
activation tensor of one sample is a function `Fin C → Fin H → Fin W → ℝ`,
a batch is a `List` of samples, and fallible tensor operations (such as
`torch.stack` on an empty list, which raises) return `Option`.

External collaborators that are not part of the two embedded files are
modelled as parameters (the boundary-band primitive from `masks.py`, the
frozen mask encoder from `encoder.py`) or, where a claim needs their state,
from the specification (`EMAStats` from `prior.py`).
-/

noncomputable section

namespace SymAlign

open BigOperators

/-- One spatial channel of shape (H, W) with real entries. -/
abbrev Plane (H W : ℕ) : Type := Fin H → Fin W → ℝ

/-- A (C, H, W) activation tensor of a single sample. -/
abbrev Chans (C H W : ℕ) : Type := Fin C → Plane H W

/-- A length-D embedding row. -/
abbrev Vec (D : ℕ) : Type := Fin D → ℝ

/-- Reading a plane at integer coordinates with zero padding outside bounds,
as done by `nn.Conv2d(..., padding=1)`. -/
def padGet {H W : ℕ} (x : Plane H W) (i j : ℤ) : ℝ :=
  if h : 0 ≤ i ∧ i < (H : ℤ) ∧ 0 ≤ j ∧ j < (W : ℤ) then
    x ⟨i.toNat, by omega⟩ ⟨j.toNat, by omega⟩
  else 0

/-- A 3×3 convolution with padding 1 and stride 1 (`nn.Conv2d(Cin, Cout, 3, padding=1)`). -/
def conv2d {Cin Cout H W : ℕ} (weight : Fin Cout → Fin Cin → Fin 3 → Fin 3 → ℝ)
    (bias : Vec Cout) (x : Chans Cin H W) : Chans Cout H W :=
  fun o i j =>
    bias o + ∑ c : Fin Cin, ∑ a : Fin 3, ∑ b : Fin 3,
      weight o c a b * padGet (x c) ((i : ℤ) + (a : ℤ) - 1) ((j : ℤ) + (b : ℤ) - 1)

/-- ReLU on a multi-channel activation (`nn.ReLU`). -/
def reluC {C H W : ℕ} (x : Chans C H W) : Chans C H W :=
  fun c i j => max (x c i j) 0

/-- ReLU on an embedding row (`nn.ReLU` inside fusion heads). -/
def reluV {D : ℕ} (v : Vec D) : Vec D :=
  fun i => max (v i) 0

/-- 2×2 max pooling with stride 2 (`nn.MaxPool2d(2)`), dropping any odd border. -/
def maxPool2 {C H W : ℕ} (x : Chans C H W) : Chans C (H / 2) (W / 2) :=
  fun c i j =>
    have hi := i.isLt
    have hj := j.isLt
    max (max (x c ⟨2 * i.val, by omega⟩ ⟨2 * j.val, by omega⟩)
             (x c ⟨2 * i.val, by omega⟩ ⟨2 * j.val + 1, by omega⟩))
        (max (x c ⟨2 * i.val + 1, by omega⟩ ⟨2 * j.val, by omega⟩)
             (x c ⟨2 * i.val + 1, by omega⟩ ⟨2 * j.val + 1, by omega⟩))

/-- Global average pooling to 1×1 followed by flattening
(`nn.AdaptiveAvgPool2d(1)` + `nn.Flatten`). -/
def adaptiveAvgPool1 {C H W : ℕ} (x : Chans C H W) : Vec C :=
  fun c => (∑ i : Fin H, ∑ j : Fin W, x c i j) / ((H : ℝ) * (W : ℝ))

/-- A dense layer `nn.Linear(In, Out)`: `y = W x + b`. -/
def linear {In Out : ℕ} (w : Fin Out → Fin In → ℝ) (b : Vec Out) (v : Vec In) : Vec Out :=
  fun o => b o + ∑ i : Fin In, w o i * v i

/-- Euclidean norm of an embedding row. -/
def l2norm {D : ℕ} (v : Vec D) : ℝ :=
  Real.sqrt (∑ i : Fin D, v i ^ 2)

/-- The epsilon of `torch.nn.functional.normalize` (default `eps=1e-12`). -/
def normEps : ℝ := 1e-12

/-- Row-wise `F.normalize(v, dim=-1)`: divide by the norm clamped below by `eps`. -/
def normalizeVec {D : ℕ} (v : Vec D) : Vec D :=
  fun i => v i / max (l2norm v) normEps

/-- Softmax over the last dimension (`torch.softmax(_, dim=-1)`); in exact real
arithmetic the max-subtraction stabilisation of the float kernel is the identity. -/
def softmaxV {n : ℕ} (v : Vec n) : Vec n :=
  fun k => Real.exp (v k) / ∑ j : Fin n, Real.exp (v j)

/-- Concatenation of two embedding rows on the feature axis
(`torch.cat([a, b], dim=-1)`). -/
def catVec {D : ℕ} (a b : Vec D) : Vec (D + D) :=
  fun k => if h : k.val < D then a ⟨k.val, h⟩ else b ⟨k.val - D, by omega⟩

/-- Parameters of `SmallImageEncoder(embed_dim, width)`: four 3×3 convolutions
(3→w, w→w, w→2w, 2w→2w) and the linear head (2w→D). -/
structure SmallImageEncoderParams (D width : ℕ) where
  conv1w : Fin width → Fin 3 → Fin 3 → Fin 3 → ℝ
  conv1b : Vec width
  conv2w : Fin width → Fin width → Fin 3 → Fin 3 → ℝ
  conv2b : Vec width
  conv3w : Fin (2 * width) → Fin width → Fin 3 → Fin 3 → ℝ
  conv3b : Vec (2 * width)
  conv4w : Fin (2 * width) → Fin (2 * width) → Fin 3 → Fin 3 → ℝ
  conv4b : Vec (2 * width)
  headw : Fin D → Fin (2 * width) → ℝ
  headb : Vec D

/-- The body of `SmallImageEncoder.forward` before the final `F.normalize`:
`self.head(self.net(x))` with
`net = Conv,ReLU,Conv,ReLU,MaxPool2,Conv,ReLU,MaxPool2,Conv,ReLU` and
`head = AdaptiveAvgPool2d(1),Flatten,Linear`. -/
def SmallImageEncoder.pre {D width H W : ℕ} (E : SmallImageEncoderParams D width)
    (x : Chans 3 H W) : Vec D :=
  let z1 := reluC (conv2d E.conv1w E.conv1b x)
  let z2 := maxPool2 (reluC (conv2d E.conv2w E.conv2b z1))
  let z3 := maxPool2 (reluC (conv2d E.conv3w E.conv3b z2))
  let z4 := reluC (conv2d E.conv4w E.conv4b z3)
  linear E.headw E.headb (adaptiveAvgPool1 z4)

/-- `SmallImageEncoder.forward`: the convolutional trunk and head followed by
`F.normalize(z, dim=-1)`. -/
def SmallImageEncoder.forward {D width H W : ℕ} (E : SmallImageEncoderParams D width)
    (x : Chans 3 H W) : Vec D :=
  normalizeVec (SmallImageEncoder.pre E x)

/-- Parameters of `FusionMLP(embed_dim)`: `proj = Linear(2D, D), ReLU, Linear(D, D)`. -/
structure FusionMLPParams (D : ℕ) where
  l1w : Fin D → Fin (D + D) → ℝ
  l1b : Vec D
  l2w : Fin D → Fin D → ℝ
  l2b : Vec D

/-- The body of `FusionMLP.forward` before the final `F.normalize`:
`self.proj(torch.cat([z_mask, z_img], dim=-1))`. -/
def FusionMLP.pre {D : ℕ} (P : FusionMLPParams D) (z_mask z_img : Vec D) : Vec D :=
  linear P.l2w P.l2b (reluV (linear P.l1w P.l1b (catVec z_mask z_img)))

/-- `FusionMLP.forward`: concatenate, project, normalize. -/
def FusionMLP.forward {D : ℕ} (P : FusionMLPParams D) (z_mask z_img : Vec D) : Vec D :=
  normalizeVec (FusionMLP.pre P z_mask z_img)

/-- Parameters of `FusionAttention(embed_dim)`:
`attn = Linear(2D, D), ReLU, Linear(D, 2)` and `proj = Linear(2D, D)`. -/
structure FusionAttentionParams (D : ℕ) where
  attn1w : Fin D → Fin (D + D) → ℝ
  attn1b : Vec D
  attn2w : Fin 2 → Fin D → ℝ
  attn2b : Vec 2
  projw : Fin D → Fin (D + D) → ℝ
  projb : Vec D

/-- The per-sample weights of `FusionAttention.forward`:
`w = torch.softmax(self.attn(torch.cat([z_mask, z_img], dim=-1)), dim=-1)`, a
pair of scalars per sample. -/
def attnWeights {D : ℕ} (P : FusionAttentionParams D) (z_mask z_img : Vec D) : Vec 2 :=
  softmaxV (linear P.attn2w P.attn2b (reluV (linear P.attn1w P.attn1b (catVec z_mask z_img))))

/-- The body of `FusionAttention.forward` before the final `F.normalize`:
`zm = w[:, 0:1] * z_mask; zi = w[:, 1:2] * z_img;`
`self.proj(torch.cat([zm, zi], dim=-1))` — each branch embedding scaled by one
scalar weight, then concatenated and projected. -/
def FusionAttention.pre {D : ℕ} (P : FusionAttentionParams D) (z_mask z_img : Vec D) : Vec D :=
  let w := attnWeights P z_mask z_img
  linear P.projw P.projb (catVec (fun d => w 0 * z_mask d) (fun d => w 1 * z_img d))

/-- `FusionAttention.forward`: soft two-way weighting, concatenate, project, normalize. -/
def FusionAttention.forward {D : ℕ} (P : FusionAttentionParams D) (z_mask z_img : Vec D) : Vec D :=
  normalizeVec (FusionAttention.pre P z_mask z_img)

/-- The `MultiModalConfig` dataclass with its defaults
(`embed_dim=64, mask_width=32, image_width=32, fusion="mlp"`). -/
structure MultiModalConfig where
  embed_dim : ℕ := 64
  mask_width : ℕ := 32
  image_width : ℕ := 32
  fusion : String := "mlp"

/-- The fusion submodule held by `MultiModalSymbolicEncoder`: either the
attention variant or the linear MLP variant, fixed at construction. -/
inductive FusionModule (D : ℕ) where
  | attn (P : FusionAttentionParams D) : FusionModule D
  | mlp (P : FusionMLPParams D) : FusionModule D

/-- Applying the constructed fusion submodule to the two branch embeddings. -/
def runFusion {D : ℕ} (f : FusionModule D) (z_mask z_img : Vec D) : Vec D :=
  match f with
  | FusionModule.attn P => FusionAttention.forward P z_mask z_img
  | FusionModule.mlp P => FusionMLP.forward P z_mask z_img

/-- The `MultiModalSymbolicEncoder` module state: the injected frozen mask
encoder (external `SmallMaskEncoder`, modelled as a function usable at any
spatial size), the owned image encoder parameters, the constructed fusion
submodule, and the configuration. -/
structure MultiModalSymbolicEncoder (D width : ℕ) where
  mask_encoder : (H W : ℕ) → Chans 2 H W → Vec D
  image_encoder : SmallImageEncoderParams D width
  fusion : FusionModule D
  cfg : MultiModalConfig

/-- `MultiModalSymbolicEncoder.__init__`: stores the mask encoder, builds the
image encoder with `cfg.embed_dim`/`cfg.image_width` (its fresh parameters are
taken as an argument here), and picks the fusion variant with
`if cfg.fusion == "attn": FusionAttention else: FusionMLP` — no validation of
the tag. -/
def mkMultiModalSymbolicEncoder (cfg : MultiModalConfig)
    (mask_encoder : (H W : ℕ) → Chans 2 H W → Vec cfg.embed_dim)
    (imgP : SmallImageEncoderParams cfg.embed_dim cfg.image_width)
    (attnP : FusionAttentionParams cfg.embed_dim)
    (mlpP : FusionMLPParams cfg.embed_dim) :
    MultiModalSymbolicEncoder cfg.embed_dim cfg.image_width :=
  { mask_encoder := mask_encoder
    image_encoder := imgP
    fusion := if cfg.fusion = "attn" then FusionModule.attn attnP else FusionModule.mlp mlpP
    cfg := cfg }

/-- `torch.clamp(x, lo, hi)` on a scalar. -/
def clampR (x lo hi : ℝ) : ℝ := min (max x lo) hi

/-- `MultiModalSymbolicEncoder.forward` on one sample:
`z_mask = mask_encoder(mask_pair)`;
`mask_ch = mask_pair[:, 0:1].clamp(0.0, 1.0)`;
`masked_image = image * mask_ch` (broadcast over the 3 image channels);
`z_img = image_encoder(masked_image)`; `z_fused = fusion(z_mask, z_img)`;
returns `(z_fused, z_mask, z_img)`. -/
def MultiModalSymbolicEncoder.forward {D width H W : ℕ}
    (enc : MultiModalSymbolicEncoder D width)
    (image : Chans 3 H W) (mask_pair : Chans 2 H W) : Vec D × Vec D × Vec D :=
  let z_mask := enc.mask_encoder H W mask_pair
  let mask_ch : Plane H W := fun i j => clampR (mask_pair 0 i j) 0 1
  let masked_image : Chans 3 H W := fun c i j => image c i j * mask_ch i j
  let z_img := SmallImageEncoder.forward enc.image_encoder masked_image
  let z_fused := runFusion enc.fusion z_mask z_img
  (z_fused, z_mask, z_img)

/-- Tensor device tags (`p.device`). -/
inductive Device where
  | cpu : Device
  | cuda (idx : ℕ) : Device
deriving DecidableEq

/-- Tensor element dtypes (`p.dtype`); values are modelled exactly as reals, so
a dtype cast only changes the tag. -/
inductive DType where
  | float16 : DType
  | float32 : DType
  | float64 : DType
deriving DecidableEq

/-- A batched single-channel probability-map tensor of shape (B,1,H,W):
a device tag, a dtype tag, and one plane per batch element. -/
structure PMap (H W : ℕ) where
  device : Device
  dtype : DType
  data : List (Plane H W)

/-- `Tensor.to(device=dev, dtype=dt)`: values are preserved exactly in the real
model, only the tags change. -/
def PMap.to {H W : ℕ} (t : PMap H W) (dev : Device) (dt : DType) : PMap H W :=
  { t with device := dev, dtype := dt }

/-- The hardening step `(pi > 0.5).astype(np.float32)` of `boundary_from_prob`:
strict threshold at 0.5, producing a {0,1}-valued plane. -/
def hardMask {H W : ℕ} (s : Plane H W) : Plane H W :=
  fun i j => if (1 : ℝ) / 2 < s i j then 1 else 0

/-- `boundary_from_prob(p, width)`: an ordered per-sample loop building
`outs[i] = boundary_band((p[i,0] > 0.5).astype(float32), width)` on CPU
(`detach().cpu().numpy()` preserves the values), then `torch.stack(outs)` —
which raises on an empty list, modelled as `none` — and finally
`.to(device=p.device, dtype=p.dtype)`. The external `boundary_band` primitive
from `masks.py` is passed in as a pure function. -/
def boundary_from_prob {H W : ℕ} (boundary_band : Plane H W → ℕ → Plane H W)
    (p : PMap H W) (width : ℕ) : Option (PMap H W) :=
  let outs := p.data.map (fun pi => boundary_band (hardMask pi) width)
  match outs with
  | [] => none
  | o :: rest => some (PMap.to { device := Device.cpu, dtype := DType.float32, data := o :: rest }
      p.device p.dtype)

/-- Modelled from the spec: the `EMAStats` online prior of `prior.py`, which is
not included under `src/` (only its caller `update_priors` is). Per-dimension
running mean and variance with a decay rate and a one-time seeding flag
(spec §4.5). -/
structure EMAStats (D : ℕ) where
  mean : Vec D
  var : Vec D
  seeded : Bool
  decay : ℝ

/-- Mean over the rows of a batch, per dimension. -/
def batchMean {D : ℕ} (batch : List (Vec D)) : Vec D :=
  fun i => (batch.map (fun r => r i)).sum / (batch.length : ℝ)

/-- Variance over the rows of a batch, per dimension. -/
def batchVar {D : ℕ} (batch : List (Vec D)) : Vec D :=
  fun i => (batch.map (fun r => (r i - batchMean batch i) ^ 2)).sum / (batch.length : ℝ)

/-- Modelled from the spec: `EMAStats.update` (spec §4.5) — no-op on an empty
batch; on the first non-empty batch seed mean/variance directly from the batch
statistics; afterwards blend with decay λ:
`μ ← λ·μ + (1−λ)·batch_mean`, `σ² ← λ·σ² + (1−λ)·batch_var`. -/
def EMAStats.update {D : ℕ} (s : EMAStats D) (batch : List (Vec D)) : EMAStats D :=
  if batch.isEmpty then s
  else if s.seeded then
    { s with
      mean := fun i => s.decay * s.mean i + (1 - s.decay) * batchMean batch i
      var := fun i => s.decay * s.var i + (1 - s.decay) * batchVar batch i }
  else { s with mean := batchMean batch, var := batchVar batch, seeded := true }

/-- The `MultiModalSymbolicAlignment` dataclass with its defaults. -/
structure MultiModalSymbolicAlignment (D width : ℕ) where
  encoder : MultiModalSymbolicEncoder D width
  ema_global : EMAStats D
  ema_boundary : EMAStats D
  boundary_width : ℕ := 2
  huber_delta : ℝ := 1
  output : String := "fused"

/-- `torch.cat([a, b], dim=1)` for two single-channel maps: channel 0 is `a`,
channel 1 is `b`. -/
def cat2 {H W : ℕ} (a b : Plane H W) : Chans 2 H W :=
  fun c => if c.val = 0 then a else b

/-- `MultiModalSymbolicAlignment.compute_embeddings(image, p)`:
`bnd = boundary_from_prob(p, self.boundary_width)` (which raises — `none` — on
an empty batch); `x_g = cat([p, bnd], dim=1)`; `x_b = cat([bnd, bnd], dim=1)`;
two full encoder forward passes `encoder(image, x_g)` and `encoder(image, x_b)`;
then the output channel is selected: `"mask"` → mask embeddings, `"image"` →
image embeddings, anything else → fused embeddings. -/
def MultiModalSymbolicAlignment.compute_embeddings {D width H W : ℕ}
    (A : MultiModalSymbolicAlignment D width)
    (boundary_band : Plane H W → ℕ → Plane H W)
    (image : List (Chans 3 H W)) (p : PMap H W) :
    Option (List (Vec D) × List (Vec D)) :=
  match boundary_from_prob boundary_band p A.boundary_width with
  | none => none
  | some bnd =>
    let x_g := List.zipWith cat2 p.data bnd.data
    let x_b := bnd.data.map (fun s => cat2 s s)
    let out_g := List.zipWith (fun img mp => A.encoder.forward img mp) image x_g
    let out_b := List.zipWith (fun img mp => A.encoder.forward img mp) image x_b
    if A.output = "mask" then some (out_g.map (fun z => z.2.1), out_b.map (fun z => z.2.1))
    else if A.output = "image" then some (out_g.map (fun z => z.2.2), out_b.map (fun z => z.2.2))
    else some (out_g.map (fun z => z.1), out_b.map (fun z => z.1))

/-- Boolean row selection `z[mask]` for a (B,) boolean mask: keeps, in order,
exactly the rows whose mask entry is true. -/
def maskedSelect {D : ℕ} (rows : List (Vec D)) (mask : List Bool) : List (Vec D) :=
  (rows.zip mask).filterMap (fun rm => if rm.2 then some rm.1 else none)

/-- `MultiModalSymbolicAlignment.update_priors(z_g, z_b, mask)`:
return unchanged if `mask.numel() == 0`; otherwise (with the mask already
boolean in this model, matching the `mask.bool()` cast) if `mask.any()` update
`ema_global` from `z_g[mask]` and `ema_boundary` from `z_b[mask]` (`detach` is
the identity on values), else return unchanged. -/
def MultiModalSymbolicAlignment.update_priors {D width : ℕ}
    (A : MultiModalSymbolicAlignment D width)
    (z_g z_b : List (Vec D)) (mask : List Bool) : MultiModalSymbolicAlignment D width :=
  if mask.isEmpty then A
  else if mask.any id then
    { A with
      ema_global := A.ema_global.update (maskedSelect z_g mask)
      ema_boundary := A.ema_boundary.update (maskedSelect z_b mask) }
  else A

/-- The spec's description of the output-channel selection of the Dual-View
Alignment Driver (§4.4 step 4): pick fused, mask-only or image-only from the
triple produced by the Multimodal Encoder. -/
def selectChannel {D : ℕ} (output : String) (z : Vec D × Vec D × Vec D) : Vec D :=
  if output = "mask" then z.2.1
  else if output = "image" then z.2.2
  else z.1

/-- All-zero parameters for the image encoder, at any size. -/
def zeroImgParams (D width : ℕ) : SmallImageEncoderParams D width :=
  { conv1w := fun _ _ _ _ => 0, conv1b := fun _ => 0
    conv2w := fun _ _ _ _ => 0, conv2b := fun _ => 0
    conv3w := fun _ _ _ _ => 0, conv3b := fun _ => 0
    conv4w := fun _ _ _ _ => 0, conv4b := fun _ => 0
    headw := fun _ _ => 0, headb := fun _ => 0 }

/-- All-zero parameters for the linear fusion head. -/
def zeroMLPParams (D : ℕ) : FusionMLPParams D :=
  { l1w := fun _ _ => 0, l1b := fun _ => 0, l2w := fun _ _ => 0, l2b := fun _ => 0 }

/-- All-zero parameters for the attention fusion head. -/
def zeroAttnParams (D : ℕ) : FusionAttentionParams D :=
  { attn1w := fun _ _ => 0, attn1b := fun _ => 0, attn2w := fun _ _ => 0, attn2b := fun _ => 0
    projw := fun _ _ => 0, projb := fun _ => 0 }

/-- A concrete encoder instance (D = 1, width = 1) used by concrete witnesses. -/
def enc0 : MultiModalSymbolicEncoder 1 1 :=
  { mask_encoder := fun _ _ _ => fun _ => 0
    image_encoder := zeroImgParams 1 1
    fusion := FusionModule.mlp (zeroMLPParams 1)
    cfg := {} }

/-- A concrete EMA statistics instance used by concrete witnesses. -/
def ema0 : EMAStats 1 :=
  { mean := fun _ => 0, var := fun _ => 0, seeded := false, decay := 99 / 100 }

/-- A concrete alignment driver instance used by concrete witnesses. -/
def A0 : MultiModalSymbolicAlignment 1 1 :=
  { encoder := enc0, ema_global := ema0, ema_boundary := ema0 }

/-- A concrete non-empty one-sample probability-map batch (H = W = 1). -/
def p1 : PMap 1 1 :=
  { device := Device.cpu, dtype := DType.float32, data := [fun _ _ => 1] }

/-- A concrete empty probability-map batch (H = W = 1). -/
def p0 : PMap 1 1 :=
  { device := Device.cpu, dtype := DType.float32, data := [] }

/-- A concrete one-sample image (H = W = 1). -/
def img1 : Chans 3 1 1 := fun _ _ _ => 1

/-- A concrete instantiation of the external boundary-band primitive: the
identity band, used only by concrete witnesses. -/
def bandId {H W : ℕ} : Plane H W → ℕ → Plane H W := fun m _ => m

/-- A configuration whose fusion tag is the misspelling "attention". -/
def cfgTypo : MultiModalConfig := { fusion := "attention" }

/-- Dividing every entry of a row by a positive constant divides its norm. -/
theorem l2norm_div_const {D : ℕ} (v : Vec D) (M : ℝ) (hM : 0 < M) :
    l2norm (fun i => v i / M) = l2norm v / M := by
  unfold l2norm
  rw [show (∑ i : Fin D, (v i / M) ^ 2) = (∑ i : Fin D, v i ^ 2) / M ^ 2 by
    rw [Finset.sum_div]
    exact Finset.sum_congr rfl fun i _ => div_pow (v i) M 2]
  rw [Real.sqrt_div (by positivity) (M ^ 2), Real.sqrt_sq hM.le]

/-- The norm of a normalized row is the original norm divided by the clamped norm. -/
theorem l2norm_normalizeVec {D : ℕ} (v : Vec D) :
    l2norm (normalizeVec v) = l2norm v / max (l2norm v) normEps := by
  have hM : (0 : ℝ) < max (l2norm v) normEps :=
    lt_max_of_lt_right (by norm_num [normEps])
  exact l2norm_div_const v _ hM

/-- Softmax over two logits: both outputs lie in [0,1] and they sum to 1. -/
theorem softmaxV_two (v : Vec 2) :
    (0 ≤ softmaxV v 0 ∧ softmaxV v 0 ≤ 1) ∧
    (0 ≤ softmaxV v 1 ∧ softmaxV v 1 ≤ 1) ∧
    softmaxV v 0 + softmaxV v 1 = 1 := by
  have hS : (0 : ℝ) < ∑ j : Fin 2, Real.exp (v j) := by
    rw [Fin.sum_univ_two]
    positivity
  have h0 : Real.exp (v 0) ≤ ∑ j : Fin 2, Real.exp (v j) := by
    rw [Fin.sum_univ_two]
    exact le_add_of_nonneg_right (Real.exp_pos _).le
  have h1 : Real.exp (v 1) ≤ ∑ j : Fin 2, Real.exp (v j) := by
    rw [Fin.sum_univ_two]
    exact le_add_of_nonneg_left (Real.exp_pos _).le
  have hS' : Real.exp (v 0) + Real.exp (v 1) ≠ 0 := by positivity
  refine ⟨⟨?_, ?_⟩, ⟨?_, ?_⟩, ?_⟩
  · exact div_nonneg (Real.exp_pos _).le hS.le
  · exact (div_le_one hS).mpr h0
  · exact div_nonneg (Real.exp_pos _).le hS.le
  · exact (div_le_one hS).mpr h1
  · simp only [softmaxV]
    rw [div_add_div_same, Fin.sum_univ_two, div_self hS']

/-- For a non-empty batch, `boundary_from_prob` maps the per-sample banded hard
mask over the batch and restores the input device and dtype. -/
theorem boundary_from_prob_of_ne_nil {H W : ℕ}
    (boundary_band : Plane H W → ℕ → Plane H W) (p : PMap H W) (bwidth : ℕ)
    (h : p.data ≠ []) :
    boundary_from_prob boundary_band p bwidth =
      some { device := p.device, dtype := p.dtype,
             data := p.data.map (fun pi => boundary_band (hardMask pi) bwidth) } := by
  simp only [boundary_from_prob]
  cases hd : p.data with
  | nil => exact absurd hd h
  | cons a l => simp [PMap.to]

/-- Reducing the output selector at the tag "mask". -/
theorem selectChannel_mask {D : ℕ} (z : Vec D × Vec D × Vec D) :
    selectChannel "mask" z = z.2.1 := rfl

/-- Reducing the output selector at the tag "image". -/
theorem selectChannel_image {D : ℕ} (z : Vec D × Vec D × Vec D) :
    selectChannel "image" z = z.2.2 := by
  unfold selectChannel
  rw [if_neg (by decide), if_pos rfl]

/-- Reducing the output selector at any unrecognized tag. -/
theorem selectChannel_default {D : ℕ} (output : String)
    (h1 : output ≠ "mask") (h2 : output ≠ "image") (z : Vec D × Vec D × Vec D) :
    selectChannel output z = z.1 := by
  unfold selectChannel
  rw [if_neg h1, if_neg h2]

/-- Every row produced by boolean selection comes from a position whose mask
entry is true. -/
theorem maskedSelect_sound {D : ℕ} :
    ∀ (rows : List (Vec D)) (mask : List Bool) (v : Vec D),
      v ∈ maskedSelect rows mask →
      ∃ i, mask.getD i false = true ∧ rows.getD i (fun _ => 0) = v := by
  intro rows
  induction rows with
  | nil =>
    intro mask v hv
    simp [maskedSelect] at hv
  | cons r rs ih =>
    intro mask v hv
    cases mask with
    | nil => simp [maskedSelect] at hv
    | cons m ms =>
      cases m with
      | true =>
        simp only [maskedSelect, List.zip_cons_cons, List.filterMap_cons, if_pos] at hv
        rcases List.mem_cons.mp hv with h | h
        · exact ⟨0, by simp, by simp [h.symm]⟩
        · obtain ⟨i, ha, hb⟩ := ih ms v h
          exact ⟨i + 1, by simpa using ha, by simpa using hb⟩
      | false =>
        simp only [maskedSelect, List.zip_cons_cons, List.filterMap_cons] at hv
        obtain ⟨i, ha, hb⟩ := ih ms v hv
        exact ⟨i + 1, by simpa using ha, by simpa using hb⟩

/-- C1: For an input batch of size 0, the claim says the Dual-View Alignment
Driver returns empty (0,D) embedding tensors without raising; the code instead
reaches `torch.stack` on an empty list, which raises, modelled here as `none`:
both `boundary_from_prob` and `compute_embeddings` produce `none` on the empty
batch, for every boundary primitive, width, driver configuration and device. -/
theorem empty_batch_stack_error {D width H W : ℕ}
    (boundary_band : Plane H W → ℕ → Plane H W) (bwidth : ℕ)
    (A : MultiModalSymbolicAlignment D width) (image : List (Chans 3 H W))
    (dev : Device) (dt : DType) :
    boundary_from_prob boundary_band { device := dev, dtype := dt, data := [] } bwidth
      = none ∧
    A.compute_embeddings boundary_band image { device := dev, dtype := dt, data := [] }
      = none :=
  ⟨rfl, rfl⟩

/-- C2 (amended): each embedding-producing forward returns its pre-normalization
row divided by `max(norm, 1e-12)`, so the returned row's L2 norm equals
`norm / max(norm, 1e-12)` — exactly 1 whenever the pre-normalization norm is at
least the epsilon, and strictly below 1 in the degenerate near-zero case. -/
theorem embedding_row_norms :
    (∀ (D width H W : ℕ) (E : SmallImageEncoderParams D width) (x : Chans 3 H W),
      l2norm (SmallImageEncoder.forward E x)
        = l2norm (SmallImageEncoder.pre E x)
            / max (l2norm (SmallImageEncoder.pre E x)) normEps) ∧
    (∀ (D : ℕ) (P : FusionMLPParams D) (z_mask z_img : Vec D),
      l2norm (FusionMLP.forward P z_mask z_img)
        = l2norm (FusionMLP.pre P z_mask z_img)
            / max (l2norm (FusionMLP.pre P z_mask z_img)) normEps) ∧
    (∀ (D : ℕ) (P : FusionAttentionParams D) (z_mask z_img : Vec D),
      l2norm (FusionAttention.forward P z_mask z_img)
        = l2norm (FusionAttention.pre P z_mask z_img)
            / max (l2norm (FusionAttention.pre P z_mask z_img)) normEps) :=
  ⟨fun _ _ _ _ E x => l2norm_normalizeVec (SmallImageEncoder.pre E x),
   fun _ P zm zi => l2norm_normalizeVec (FusionMLP.pre P zm zi),
   fun _ P zm zi => l2norm_normalizeVec (FusionAttention.pre P zm zi)⟩

/-- C2 counterexample: with all-zero parameters the linear fusion forward emits
the zero row on a concrete input, whose L2 norm is 0 — not equal to 1 within
the spec's floating tolerance of 1e-5. -/
theorem fusion_zero_params_row_norm_zero :
    l2norm (FusionMLP.forward (zeroMLPParams 1) (fun _ => 1) (fun _ => 1)) = 0 ∧
    ¬ |l2norm (FusionMLP.forward (zeroMLPParams 1) (fun _ => 1) (fun _ => 1)) - 1|
        ≤ 1e-5 := by
  have hpre : FusionMLP.pre (zeroMLPParams 1) (fun _ => (1 : ℝ)) (fun _ => 1)
      = fun _ => 0 := by
    funext i
    simp [FusionMLP.pre, zeroMLPParams, linear]
  have hfwd : FusionMLP.forward (zeroMLPParams 1) (fun _ => (1 : ℝ)) (fun _ => 1)
      = fun _ => 0 := by
    funext i
    simp [FusionMLP.forward, hpre, normalizeVec]
  have hnorm : l2norm (fun _ : Fin 1 => (0 : ℝ)) = 0 := by
    simp [l2norm]
  rw [hfwd, hnorm]
  norm_num

/-- C3: the attention fusion computes exactly two per-sample softmax weights,
each in [0,1] and summing to 1 (for all logits, extreme included — exact real
arithmetic), and scales each branch's full D-dimensional embedding by its
single scalar weight before concatenation and projection. -/
theorem attention_weights_softmax {D : ℕ} (P : FusionAttentionParams D)
    (z_mask z_img : Vec D) :
    (0 ≤ attnWeights P z_mask z_img 0 ∧ attnWeights P z_mask z_img 0 ≤ 1) ∧
    (0 ≤ attnWeights P z_mask z_img 1 ∧ attnWeights P z_mask z_img 1 ≤ 1) ∧
    attnWeights P z_mask z_img 0 + attnWeights P z_mask z_img 1 = 1 ∧
    FusionAttention.forward P z_mask z_img
      = normalizeVec (linear P.projw P.projb
          (catVec (fun d => attnWeights P z_mask z_img 0 * z_mask d)
                  (fun d => attnWeights P z_mask z_img 1 * z_img d))) :=
  ⟨(softmaxV_two _).1, (softmaxV_two _).2.1, (softmaxV_two _).2.2, rfl⟩

/-- C4: for every non-empty batch, boundary extraction thresholds the
probability map at 0.5 (strict) before banding, processes the samples with an
ordered per-sample map, and returns a tensor with the input's device and dtype. -/
theorem boundary_hardened_per_sample_device {H W : ℕ}
    (boundary_band : Plane H W → ℕ → Plane H W) (p : PMap H W) (bwidth : ℕ)
    (h : p.data ≠ []) :
    boundary_from_prob boundary_band p bwidth =
      some { device := p.device, dtype := p.dtype,
             data := p.data.map (fun pi => boundary_band (hardMask pi) bwidth) } :=
  boundary_from_prob_of_ne_nil boundary_band p bwidth h

/-- C4 witness: the theorem applied to a concrete one-sample batch. -/
theorem boundary_hardened_per_sample_device_witness :
    p1.data ≠ [] ∧
    boundary_from_prob bandId p1 2 =
      some { device := p1.device, dtype := p1.dtype,
             data := p1.data.map (fun pi => bandId (hardMask pi) 2) } :=
  ⟨by simp [p1], boundary_hardened_per_sample_device bandId p1 2 (by simp [p1])⟩

/-- C5 (amended to non-empty batches): `compute_embeddings` builds the global
view `cat2 p bnd` (channel 0 the probability map, channel 1 the boundary) and
the boundary-only view `cat2 bnd bnd` (both channels identical), runs the
encoder once per view on every sample, and returns the configured output
channel from each view as the pair (z_global, z_boundary). -/
theorem compute_embeddings_dual_views {D width H W : ℕ}
    (boundary_band : Plane H W → ℕ → Plane H W)
    (A : MultiModalSymbolicAlignment D width)
    (image : List (Chans 3 H W)) (p : PMap H W) (h : p.data ≠ []) :
    ∃ t, boundary_from_prob boundary_band p A.boundary_width = some t ∧
      A.compute_embeddings boundary_band image p =
        some (List.zipWith (fun img mp => selectChannel A.output (A.encoder.forward img mp))
                image (List.zipWith cat2 p.data t.data),
              List.zipWith (fun img mp => selectChannel A.output (A.encoder.forward img mp))
                image (t.data.map (fun s => cat2 s s))) := by
  refine ⟨_, boundary_from_prob_of_ne_nil boundary_band p A.boundary_width h, ?_⟩
  simp only [MultiModalSymbolicAlignment.compute_embeddings,
    boundary_from_prob_of_ne_nil boundary_band p A.boundary_width h]
  by_cases h1 : A.output = "mask"
  · rw [if_pos h1]
    simp only [h1, selectChannel_mask]
    simp [List.map_zipWith]
  · by_cases h2 : A.output = "image"
    · rw [if_neg h1, if_pos h2]
      simp only [h2, selectChannel_image]
      simp [List.map_zipWith]
    · rw [if_neg h1, if_neg h2]
      simp only [selectChannel_default A.output h1 h2]
      simp [List.map_zipWith]

/-- C5 counterexample: at batch size 0 the driver does not return a pair of
embedding batches at all — it propagates the `torch.stack` failure. -/
theorem compute_embeddings_empty_batch_cex :
    A0.compute_embeddings bandId ([] : List (Chans 3 1 1)) p0 = none := rfl

/-- C5 witness: the amended theorem applied to a concrete one-sample batch. -/
theorem compute_embeddings_dual_views_witness :
    p1.data ≠ [] ∧
    (∃ t, boundary_from_prob bandId p1 A0.boundary_width = some t ∧
      A0.compute_embeddings bandId [img1] p1 =
        some (List.zipWith (fun img mp => selectChannel A0.output (A0.encoder.forward img mp))
                [img1] (List.zipWith cat2 p1.data t.data),
              List.zipWith (fun img mp => selectChannel A0.output (A0.encoder.forward img mp))
                [img1] (t.data.map (fun s => cat2 s s)))) :=
  ⟨by simp [p1], compute_embeddings_dual_views bandId A0 [img1] p1 (by simp [p1])⟩

/-- C6: the encoder's image branch receives exactly the element-wise product of
the image with channel 0 of the mask pair clamped to [0,1] (broadcast over the
3 image channels), and the forward always returns all three embeddings — the
mask embedding, the image embedding and their fusion — with no shortcut path. -/
theorem encoder_masked_image_three_channels {D width H W : ℕ}
    (enc : MultiModalSymbolicEncoder D width)
    (image : Chans 3 H W) (mask_pair : Chans 2 H W) :
    (enc.forward image mask_pair).2.1 = enc.mask_encoder H W mask_pair ∧
    (enc.forward image mask_pair).2.2 =
      SmallImageEncoder.forward enc.image_encoder
        (fun c i j => image c i j * clampR (mask_pair 0 i j) 0 1) ∧
    (enc.forward image mask_pair).1 =
      runFusion enc.fusion (enc.mask_encoder H W mask_pair)
        (SmallImageEncoder.forward enc.image_encoder
          (fun c i j => image c i j * clampR (mask_pair 0 i j) 0 1)) :=
  ⟨rfl, rfl, rfl⟩

/-- C7: on an empty or all-false validity mask, `update_priors` leaves both EMA
statistics states unchanged. -/
theorem update_priors_noop_on_invalid {D width : ℕ}
    (A : MultiModalSymbolicAlignment D width) (z_g z_b : List (Vec D))
    (mask : List Bool) (h : mask = [] ∨ ∀ b ∈ mask, b = false) :
    (A.update_priors z_g z_b mask).ema_global = A.ema_global ∧
    (A.update_priors z_g z_b mask).ema_boundary = A.ema_boundary := by
  unfold MultiModalSymbolicAlignment.update_priors
  rcases h with h | h
  · subst h
    simp
  · have hany : mask.any id = false := by
      simp only [List.any_eq_false, id]
      intro x hx
      simp [h x hx]
    cases he : mask.isEmpty with
    | true => simp [he]
    | false => simp [he, hany]

/-- C7 witness: the theorem applied to a concrete all-false mask. -/
theorem update_priors_noop_on_invalid_witness :
    (([false] : List Bool) = [] ∨ ∀ b ∈ ([false] : List Bool), b = false) ∧
    (A0.update_priors [fun _ => 1] [fun _ => 1] [false]).ema_global = A0.ema_global ∧
    (A0.update_priors [fun _ => 1] [fun _ => 1] [false]).ema_boundary = A0.ema_boundary := by
  have h : (([false] : List Bool) = [] ∨ ∀ b ∈ ([false] : List Bool), b = false) := by
    right
    intro b hb
    simpa using hb
  exact ⟨h, (update_priors_noop_on_invalid A0 [fun _ => 1] [fun _ => 1] [false] h).1,
    (update_priors_noop_on_invalid A0 [fun _ => 1] [fun _ => 1] [false] h).2⟩

/-- C8: with at least one valid sample, `update_priors` updates the global
statistics only from the selected rows of z_g and the boundary statistics only
from the selected rows of z_b (never cross-updated), and every selected row
comes from a position whose validity entry is true. -/
theorem update_priors_valid_rows_only {D width : ℕ}
    (A : MultiModalSymbolicAlignment D width) (z_g z_b : List (Vec D))
    (mask : List Bool) (h : mask.any id = true) :
    (A.update_priors z_g z_b mask).ema_global
      = A.ema_global.update (maskedSelect z_g mask) ∧
    (A.update_priors z_g z_b mask).ema_boundary
      = A.ema_boundary.update (maskedSelect z_b mask) ∧
    (∀ rows : List (Vec D), ∀ v ∈ maskedSelect rows mask,
      ∃ i, mask.getD i false = true ∧ rows.getD i (fun _ => 0) = v) := by
  have hne : mask.isEmpty = false := by
    cases mask with
    | nil => simp at h
    | cons a l => rfl
  refine ⟨?_, ?_, fun rows v hv => maskedSelect_sound rows mask v hv⟩ <;>
    simp [MultiModalSymbolicAlignment.update_priors, hne, h]

/-- C8 witness: the theorem applied to a concrete mask with one valid sample. -/
theorem update_priors_valid_rows_only_witness :
    (([true] : List Bool).any id = true) ∧
    (A0.update_priors [fun _ => 1] [fun _ => 2] [true]).ema_global
      = A0.ema_global.update (maskedSelect [fun _ => 1] [true]) ∧
    (A0.update_priors [fun _ => 1] [fun _ => 2] [true]).ema_boundary
      = A0.ema_boundary.update (maskedSelect [fun _ => 2] [true]) ∧
    (∀ rows : List (Vec 1), ∀ v ∈ maskedSelect rows [true],
      ∃ i, ([true] : List Bool).getD i false = true ∧ rows.getD i (fun _ => 0) = v) := by
  have h : ([true] : List Bool).any id = true := rfl
  exact ⟨h, (update_priors_valid_rows_only A0 [fun _ => 1] [fun _ => 2] [true] h).1,
    (update_priors_valid_rows_only A0 [fun _ => 1] [fun _ => 2] [true] h).2.1,
    (update_priors_valid_rows_only A0 [fun _ => 1] [fun _ => 2] [true] h).2.2⟩

/-- C9: constructing the encoder with any fusion tag other than "attn" silently
selects the linear FusionMLP variant; construction is total, so no
configuration-validation error is ever raised. -/
theorem fusion_tag_fallback_mlp (cfg : MultiModalConfig)
    (mask_encoder : (H W : ℕ) → Chans 2 H W → Vec cfg.embed_dim)
    (imgP : SmallImageEncoderParams cfg.embed_dim cfg.image_width)
    (attnP : FusionAttentionParams cfg.embed_dim)
    (mlpP : FusionMLPParams cfg.embed_dim)
    (h : cfg.fusion ≠ "attn") :
    (mkMultiModalSymbolicEncoder cfg mask_encoder imgP attnP mlpP).fusion
      = FusionModule.mlp mlpP := by
  simp [mkMultiModalSymbolicEncoder, h]

/-- C9 witness: the theorem applied at the misspelled fusion tag "attention". -/
theorem fusion_tag_fallback_mlp_witness :
    cfgTypo.fusion ≠ "attn" ∧
    (mkMultiModalSymbolicEncoder cfgTypo (fun _ _ _ => fun _ => 0)
        (zeroImgParams cfgTypo.embed_dim cfgTypo.image_width)
        (zeroAttnParams cfgTypo.embed_dim) (zeroMLPParams cfgTypo.embed_dim)).fusion
      = FusionModule.mlp (zeroMLPParams cfgTypo.embed_dim) :=
  ⟨by decide,
   fusion_tag_fallback_mlp cfgTypo (fun _ _ _ => fun _ => 0)
     (zeroImgParams cfgTypo.embed_dim cfgTypo.image_width)
     (zeroAttnParams cfgTypo.embed_dim) (zeroMLPParams cfgTypo.embed_dim) (by decide)⟩

/-- C10: for every output selector other than "mask" and "image" (and a
non-empty batch, where the driver returns at all), `compute_embeddings`
silently returns the fused-channel embeddings of both views; no validation
error is raised for the unrecognized selector. -/
theorem output_tag_fallback_fused {D width H W : ℕ}
    (boundary_band : Plane H W → ℕ → Plane H W)
    (A : MultiModalSymbolicAlignment D width)
    (image : List (Chans 3 H W)) (p : PMap H W)
    (h1 : A.output ≠ "mask") (h2 : A.output ≠ "image") (h : p.data ≠ []) :
    ∃ t, boundary_from_prob boundary_band p A.boundary_width = some t ∧
      A.compute_embeddings boundary_band image p =
        some (List.zipWith (fun img mp => (A.encoder.forward img mp).1)
                image (List.zipWith cat2 p.data t.data),
              List.zipWith (fun img mp => (A.encoder.forward img mp).1)
                image (t.data.map (fun s => cat2 s s))) := by
  refine ⟨_, boundary_from_prob_of_ne_nil boundary_band p A.boundary_width h, ?_⟩
  simp only [MultiModalSymbolicAlignment.compute_embeddings,
    boundary_from_prob_of_ne_nil boundary_band p A.boundary_width h]
  rw [if_neg h1, if_neg h2]
  simp [List.map_zipWith]

/-- C10 witness: the theorem applied at the default selector "fused" (which is
not "mask" and not "image") on a concrete one-sample batch. -/
theorem output_tag_fallback_fused_witness :
    A0.output ≠ "mask" ∧ A0.output ≠ "image" ∧ p1.data ≠ [] ∧
    (∃ t, boundary_from_prob bandId p1 A0.boundary_width = some t ∧
      A0.compute_embeddings bandId [img1] p1 =
        some (List.zipWith (fun img mp => (A0.encoder.forward img mp).1)
                [img1] (List.zipWith cat2 p1.data t.data),
              List.zipWith (fun img mp => (A0.encoder.forward img mp).1)
                [img1] (t.data.map (fun s => cat2 s s)))) :=
  ⟨by decide, by decide, by simp [p1],
   output_tag_fallback_fused bandId A0 [img1] p1 (by decide) (by decide) (by simp [p1])⟩

end SymAlign
